import Mathlib

/-
Shallow embedding of the template clustering and archival engine of
`eqcutil/core/clusteringtribe.py` (class `ClusteringTribe`, a child of the
eqcorrscan `Tribe`), together with theorems settling the specification
claims about it.

Modelling conventions:
- A pandas DataFrame indexed by template name is a list of rows
  (`ClustersDF`); a cell that pandas would hold as NaN is simply absent.
- numpy distance matrices are lists of lists of rationals; out-of-bounds
  indexing, which raises `IndexError` in numpy, is modelled by `Option`.
- Python exceptions are modelled with `Except PyErr`.
- External collaborators (eqcorrscan delegates, scipy linkage/fcluster)
  are opaque: their outputs are taken as inputs of the embedded
  operations, and only the control flow of this repository's code around
  them is modelled.
-/

namespace ClusteringTribe

/-- Python exceptions raised (or modelled) by the embedded code paths. -/
inductive PyErr where
  | typeError
  | attributeError
  | valueError
  | keyError
  | nameError
  | indexError
deriving DecidableEq, Repr

/-- A template as the clustering engine observes it: a unique `name`, an
opaque waveform payload (modelled only by presence) and optional event
metadata (modelled by presence). -/
structure Template where
  name : String
  hasEvent : Bool
deriving DecidableEq, Repr

/-- One row of the `clusters` DataFrame: the template name (the index
value), its recorded `id_no`, and the integer group cells keyed by method
column. A method column holding NaN for this row is absent from `cells`. -/
structure CRow where
  name : String
  id_no : Nat
  cells : List (String × Int)
deriving DecidableEq, Repr

/-- The `clusters` pandas DataFrame: the method columns (the always
present `id_no` column lives in each row) and the rows in index order. -/
structure ClustersDF where
  cols : List String
  rows : List CRow
deriving DecidableEq, Repr

/-- The empty DataFrame `pd.DataFrame(columns=['id_no'])` set by
`__init__`. -/
def ClustersDF.empty : ClustersDF := ⟨[], []⟩

/-- The index (`self.clusters.index.values`): template names in row
order. -/
def ClustersDF.names (df : ClustersDF) : List String := df.rows.map CRow.name

/-- Lookup in an association list of cells (first match wins). -/
def cellsGet : List (String × Int) → String → Option Int
  | [], _ => none
  | c :: rest, m => if c.1 == m then some c.2 else cellsGet rest m

/-- Cell lookup `df.loc[name, method]` for one row. -/
def CRow.cell (r : CRow) (method : String) : Option Int :=
  cellsGet r.cells method

/-- Cell write for one row: overwrite the method's value, or create it. -/
def CRow.setCell (r : CRow) (method : String) (v : Int) : CRow :=
  if r.cells.any (fun p => p.1 == method) then
    { r with cells := r.cells.map (fun p => if p.1 == method then (method, v) else p) }
  else
    { r with cells := r.cells ++ [(method, v)] }

/-- A serialized clustering keyword value. `num m e` is the decimal
literal `m / 10^e` (Python ints and floats with a finite decimal repr);
`pynone` is Python `None`; `nan` is the float nan that pandas produces
for NA cells (and that `float(nan)` keeps). -/
inductive KwVal where
  | bool (b : Bool)
  | num (m : Int) (e : Nat)
  | str (s : String)
  | pynone
  | nan
deriving DecidableEq, Repr

/-- The distance matrix (`self.dist_mat`, a numpy N×N array). -/
abbrev DistMat := List (List ℚ)

/-- The state of a `ClusteringTribe` instance: the template sequence, the
membership table `clusters`, the optional `dist_mat`, and the
`cluster_kwargs` parameter record (method name to keyword list). -/
structure CTribe where
  templates : List Template
  clusters : ClustersDF
  dist_mat : Option DistMat
  cluster_kwargs : List (String × List (String × KwVal))
deriving DecidableEq, Repr

/-- The character for a decimal digit `d < 10` (`'0'` + d). -/
def digitChar (d : Nat) : Char := Char.ofNat (48 + d)

/-- Decimal digit characters of a positive natural number, most
significant first; `fuel` bounds the recursion depth (any `fuel > n`
gives the exact digits). -/
def decDigitsCore : Nat → Nat → List Char
  | 0, _ => []
  | fuel + 1, n => if n = 0 then [] else decDigitsCore fuel (n / 10) ++ [digitChar (n % 10)]

/-- Decimal digit characters of a natural number, most significant
first (`str(n)` in Python). -/
def decDigits (n : Nat) : List Char :=
  if n = 0 then ['0'] else decDigitsCore (n + 1) n

/-- Decimal rendering of a natural number (`str(n)`). -/
def natToDec (n : Nat) : String := ⟨decDigits n⟩

/-- `'__' in s` on the character list: does the list contain two
consecutive underscores? -/
def hasDoubleUnderscore : List Char → Bool
  | '_' :: '_' :: _ => true
  | _ :: rest => hasDoubleUnderscore rest
  | [] => false

/-- `s.split('__')[0]` on the character list: the characters before the
first occurrence of `'__'` (all of them if there is none). -/
def baseChars : List Char → List Char
  | '_' :: '_' :: _ => []
  | c :: rest => c :: baseChars rest
  | [] => []

/-- `delimiter in other` for the literal delimiter `'__'`. -/
def strContainsDelim (s : String) : Bool := hasDoubleUnderscore s.data

/-- `other.split('__')[0]`. Note the source splits on the literal `'__'`,
not on the `delimiter` argument (line 115). -/
def strBasename (s : String) : String := ⟨baseChars s.data⟩

/-- `fnmatch.fnmatch(n, basename + '*')`. For base names free of glob
metacharacters (`*?[`), as template names are, this is a prefix test. -/
def globPrefix (b n : String) : Bool := b.data.isPrefixOf n.data

/-- The `while f'{basename}{delimiter}{start}' in matches: start += 1`
loop. The Python loop terminates because `matches` is finite; `fuel`
bounds the iterations and `matches.length + 1` always suffices (see
`dedupLoop_not_mem`). -/
def dedupLoop (b delim : String) (mts : List String) : Nat → Nat → String
  | 0, start => b ++ delim ++ natToDec start
  | fuel + 1, start =>
    let cand := b ++ delim ++ natToDec start
    if mts.contains cand then dedupLoop b delim mts fuel (start + 1) else cand

/-- `ClusteringTribe._deduplicate_name(other, delimiter, start)` against
the index `indexNames` (source lines 108-119). -/
def deduplicateName (indexNames : List String) (other delim : String) (start : Nat) : String :=
  if indexNames.contains other then
    let basename := if strContainsDelim other then strBasename other else other
    let mts := indexNames.filter (fun n => globPrefix basename n)
    dedupLoop basename delim mts (mts.length + 1) start
  else other

/-! ### add_template / remove (source lines 121-132 and 662-674) -/

/-- The shared tail of `add_template`: append the template to
`self.templates` and concat a new single-row DataFrame
`{'id_no': len(self) - 1}` (the length measured after the append) onto
`self.clusters`. -/
def pushTemplate (t : CTribe) (tpl : Template) : CTribe :=
  { t with
    templates := t.templates ++ [tpl]
    clusters := { t.clusters with rows := t.clusters.rows ++ [⟨tpl.name, t.templates.length, []⟩] } }

/-- `ClusteringTribe.add_template(other, rename_duplicates)` (lines
121-132): on a name collision either rename via `_deduplicate_name`
(defaults `delimiter='__'`, `start=0`) or raise `AttributeError`. -/
def addTemplate (t : CTribe) (other : Template) (renameDuplicates : Bool) : Except PyErr CTribe :=
  if t.clusters.names.contains other.name then
    if renameDuplicates then
      let newName := deduplicateName t.clusters.names other.name "__" 0
      .ok (pushTemplate t { other with name := newName })
    else
      .error .attributeError
  else
    .ok (pushTemplate t other)

/-- `ClusteringTribe.remove(template)` (lines 662-674). If the template
is present, `self.clusters.drop(labels=template.name)` is evaluated but
its result is DISCARDED (pandas `drop` is not in place), so the
membership row survives; then `Tribe.remove` drops the template from the
sequence. If absent, nothing happens. -/
def removeTemplate (t : CTribe) (tpl : Template) : CTribe :=
  if t.templates.contains tpl then
    { t with templates := t.templates.filter (fun x => x != tpl) }
  else t

/-! ### Claim C2 -/

/-- A concrete one-template instance (template `a` with row
`{'id_no': 0}`), as produced by `ClusteringTribe()` plus one add. -/
def c2Base : CTribe := ⟨[⟨"a", false⟩], ⟨[], [⟨"a", 0, []⟩]⟩, none, []⟩

/-- The state after `add_template` of template `b`. -/
def c2Added : CTribe := ⟨[⟨"a", false⟩, ⟨"b", false⟩], ⟨[], [⟨"a", 0, []⟩, ⟨"b", 1, []⟩]⟩, none, []⟩

/-- C2 (code bug): on the instance holding template `a`, `add_template`
of a fresh template `b` followed by `remove` of `b` drops `b` from the
template sequence but leaves its Membership Table row behind: the row set
is `{a, b}`, not the prior `{a}`. The spec (and the method's own
docstring, "removes both the template and it's entry from the clusters
attribute") say the row is dropped; the code discards the result of the
non-in-place `clusters.drop`. -/
theorem c2_remove_leaves_membership_row :
    addTemplate c2Base ⟨"b", false⟩ false = .ok c2Added ∧
    (removeTemplate c2Added ⟨"b", false⟩).templates.map Template.name = ["a"] ∧
    (removeTemplate c2Added ⟨"b", false⟩).clusters.names = ["a", "b"] := by
  refine ⟨rfl, by decide, by decide⟩

/-! ### get_subset (source lines 206-236) -/

/-- numpy cell read `dm[i, j]`; `none` models `IndexError`. -/
def dmGet (dm : DistMat) (i j : Nat) : Option ℚ :=
  (dm.get? i).bind (fun r => r.get? j)

/-- The double loop filling `subset.dist_mat[xx, yy] = self.dist_mat[ii, jj]`
over the subset rows' recorded `id_no` values (lines 231-234). Every cell
of the `np.full` NaN matrix is overwritten; one out-of-bounds read aborts
`get_subset` with `IndexError` (`none`). -/
def subMat (dm : DistMat) (ids : List Nat) : Option DistMat :=
  if ids.all (fun i => ids.all (fun j => (dmGet dm i j).isSome)) then
    some (ids.map (fun i => ids.map (fun j => (dmGet dm i j).getD 0)))
  else none

/-- `self.select(name)`: the first template with the given name
(eqcorrscan `Tribe.select`); `none` models its `IndexError` when the name
is missing from the template sequence. -/
def selectTemplate (ts : List Template) (n : String) : Option Template :=
  ts.find? (fun tp => tp.name == n)

/-- `[self.select(name) for name in names]`: the comprehension selecting
each named template in order; the first failed select aborts with its
`IndexError`. -/
def selectAll (ts : List Template) : List String → Option (List Template)
  | [] => some []
  | n :: rest =>
    match selectTemplate ts n, selectAll ts rest with
    | some tp, some l => some (tp :: l)
    | _, _ => none

/-- The rows kept by `self.clusters[self.clusters.index.isin(names)]`:
the original rows, in stored order, whose name is selected. -/
def subsetRows (t : CTribe) (names : List String) : List CRow :=
  t.clusters.rows.filter (fun r => names.contains r.name)

/-- `ClusteringTribe.get_subset(names)` (lines 206-236). Fails
(`ValueError`) if a name is missing from the index; fails inside the
constructor (`AttributeError` from `add_template`) if `names` repeats a
name; keeps the selected rows with their recorded `id_no`; copies
`cluster_kwargs` through; and, when a `dist_mat` exists, builds the
`len(names)`-square matrix looked up at the recorded `id_no` pairs. -/
def getSubset (t : CTribe) (names : List String) : Option CTribe :=
  if ¬ names.all (fun n => t.clusters.names.contains n) then none
  else if ¬ names.Nodup then none
  else
    match selectAll t.templates names with
    | none => none
    | some subTs =>
      let base : CTribe := ⟨subTs, ⟨t.clusters.cols, subsetRows t names⟩, none, t.cluster_kwargs⟩
      match t.dist_mat with
      | none => some base
      | some dm =>
        (subMat dm ((subsetRows t names).map CRow.id_no)).map
          (fun m => { base with dist_mat := some m })

/-! ### Claim C1 -/

theorem map_name_filter (p : String → Bool) (l : List CRow) :
    (l.filter (fun r => p r.name)).map CRow.name = (l.map CRow.name).filter p := by
  induction l with
  | nil => rfl
  | cons r rs ih =>
    by_cases h : p r.name <;> simp [List.filter_cons, h, ih]

theorem length_subsetRows (t : CTribe) (names : List String)
    (hnd : t.clusters.names.Nodup) (hnn : names.Nodup)
    (hsub : ∀ n ∈ names, n ∈ t.clusters.names) :
    (subsetRows t names).length = names.length := by
  have hmapeq : (subsetRows t names).map CRow.name
      = t.clusters.names.filter (fun n => names.contains n) :=
    map_name_filter (fun n => names.contains n) t.clusters.rows
  have hlen1 : (subsetRows t names).length
      = (t.clusters.names.filter (fun n => names.contains n)).length := by
    rw [← hmapeq, List.length_map]
  have hnds : (t.clusters.names.filter (fun n => names.contains n)).Nodup :=
    hnd.filter _
  have hfin : (t.clusters.names.filter (fun n => names.contains n)).toFinset
      = names.toFinset := by
    ext x
    simp only [List.toFinset_filter, Finset.mem_filter, List.mem_toFinset]
    constructor
    · rintro ⟨_, hx⟩
      simpa using hx
    · intro hx
      exact ⟨hsub x hx, by simpa using hx⟩
  have hcard := congrArg Finset.card hfin
  rw [List.toFinset_card_of_nodup hnds, List.toFinset_card_of_nodup hnn] at hcard
  omega

/-- C1 (confirmed): for every instance with a populated `dist_mat` and
every valid name selection, `get_subset(names)` produces a new
`len(names)`-square distance matrix whose `[x, y]` entry is the original
matrix entry at `[id_no(x), id_no(y)]`, where `id_no` is the selected
template's recorded `id_no` from the Membership Table, not its ordinal
position in the subset. -/
theorem c1_subset_dist_mat_by_id_no (t : CTribe) (names : List String)
    (dm : DistMat) (s : CTribe)
    (hdm : t.dist_mat = some dm) (hs : getSubset t names = some s)
    (hnd : t.clusters.names.Nodup) :
    ∃ m, s.dist_mat = some m ∧
      m.length = names.length ∧
      (∀ row ∈ m, row.length = names.length) ∧
      (∀ x y rx ry, (subsetRows t names).get? x = some rx →
        (subsetRows t names).get? y = some ry →
        (m.get? x).bind (fun row => row.get? y) = dmGet dm rx.id_no ry.id_no) := by
  classical
  unfold getSubset at hs
  split at hs
  · exact absurd hs (by simp)
  split at hs
  · exact absurd hs (by simp)
  rename_i hall hnn
  have hsub : ∀ n ∈ names, n ∈ t.clusters.names := by
    have h1 := of_not_not hall
    simpa using h1
  have hnn' : names.Nodup := of_not_not hnn
  have hlen := length_subsetRows t names hnd hnn' hsub
  match hsel : selectAll t.templates names with
  | none => rw [hsel] at hs; exact absurd hs (by simp)
  | some subTs =>
    rw [hsel, hdm] at hs
    simp only [Option.map_eq_some'] at hs
    obtain ⟨m, hm, hsm⟩ := hs
    unfold subMat at hm
    split at hm
    swap
    · exact absurd hm (by simp)
    rename_i hguard
    have hml : m = ((subsetRows t names).map CRow.id_no).map
        (fun i => ((subsetRows t names).map CRow.id_no).map
          (fun j => (dmGet dm i j).getD 0)) :=
      (Option.some_inj.mp hm).symm
    refine ⟨m, by rw [← hsm], ?_, ?_, ?_⟩
    · rw [hml, List.length_map, List.length_map, hlen]
    · intro row hrow
      rw [hml] at hrow
      obtain ⟨i, _, hrw⟩ := List.mem_map.mp hrow
      rw [← hrw, List.length_map, List.length_map, hlen]
    · intro x y rx ry hx hy
      have hix : ((subsetRows t names).map CRow.id_no).get? x = some rx.id_no := by
        rw [List.get?_map, hx]; rfl
      have hiy : ((subsetRows t names).map CRow.id_no).get? y = some ry.id_no := by
        rw [List.get?_map, hy]; rfl
      have hmemx : rx.id_no ∈ (subsetRows t names).map CRow.id_no :=
        List.mem_map.mpr ⟨rx, List.get?_mem hx, rfl⟩
      have hmemy : ry.id_no ∈ (subsetRows t names).map CRow.id_no :=
        List.mem_map.mpr ⟨ry, List.get?_mem hy, rfl⟩
      have hsome := List.all_eq_true.mp
        (List.all_eq_true.mp hguard rx.id_no hmemx) ry.id_no hmemy
      have hgx : m.get? x = some (((subsetRows t names).map CRow.id_no).map
          (fun j => (dmGet dm rx.id_no j).getD 0)) := by
        rw [hml, List.get?_map, hix]; rfl
      rw [hgx]
      show ((((subsetRows t names).map CRow.id_no).map
        (fun j => (dmGet dm rx.id_no j).getD 0)).get? y) = dmGet dm rx.id_no ry.id_no
      rw [List.get?_map, hiy]
      obtain ⟨q, hq⟩ := Option.isSome_iff_exists.mp hsome
      simp only [Option.map_some']
      rw [hq]
      rfl

/-- The concrete instance of the spec example: templates `A`, `B`, `C`
with matrix `[[0, .2, .5], [.2, 0, .3], [.5, .3, 0]]`. -/
def c1Demo : CTribe :=
  ⟨[⟨"A", false⟩, ⟨"B", false⟩, ⟨"C", false⟩],
   ⟨[], [⟨"A", 0, []⟩, ⟨"B", 1, []⟩, ⟨"C", 2, []⟩]⟩,
   some [[0, 1/5, 1/2], [1/5, 0, 3/10], [1/2, 3/10, 0]],
   []⟩

/-- The subset the code produces for `subset(['C','A'])` of `c1Demo`:
rows kept in stored order with their recorded id_no, matrix
`[[0, .5], [.5, 0]]` as the spec example demands. -/
def c1DemoSub : CTribe :=
  ⟨[⟨"C", false⟩, ⟨"A", false⟩],
   ⟨[], [⟨"A", 0, []⟩, ⟨"C", 2, []⟩]⟩,
   some [[0, 1/2], [1/2, 0]],
   []⟩

theorem c1_subset_dist_mat_by_id_no_witness :
    (getSubset c1Demo ["C", "A"] = some c1DemoSub ∧
      c1DemoSub.dist_mat = some [[0, 1/2], [1/2, 0]]) ∧
    (∃ m, c1DemoSub.dist_mat = some m ∧
      m.length = (["C", "A"] : List String).length ∧
      (∀ row ∈ m, row.length = (["C", "A"] : List String).length) ∧
      (∀ x y rx ry, (subsetRows c1Demo ["C", "A"]).get? x = some rx →
        (subsetRows c1Demo ["C", "A"]).get? y = some ry →
        (m.get? x).bind (fun row => row.get? y) = dmGet
          [[0, 1/5, 1/2], [1/5, 0, 3/10], [1/2, 3/10, 0]] rx.id_no ry.id_no)) :=
  ⟨⟨rfl, rfl⟩,
    c1_subset_dist_mat_by_id_no c1Demo ["C", "A"]
      [[0, 1/5, 1/2], [1/5, 0, 3/10], [1/2, 3/10, 0]] c1DemoSub
      rfl rfl (by decide)⟩

/-! ### Claim C5 -/

theorem selectTemplate_selectAll (ts : List Template) :
    ∀ (names : List String) (subTs : List Template), selectAll ts names = some subTs →
      names.Nodup → ∀ n ∈ names, selectTemplate subTs n = selectTemplate ts n := by
  intro names
  induction names with
  | nil =>
    intro subTs _ _ n hn
    cases hn
  | cons n0 rest ih =>
    intro subTs h hnd n hn
    simp only [selectAll] at h
    cases h0 : selectTemplate ts n0 with
    | none => rw [h0] at h; exact absurd h (by simp)
    | some tp0 =>
      cases h1 : selectAll ts rest with
      | none => rw [h0, h1] at h; exact absurd h (by simp)
      | some l =>
        rw [h0, h1] at h
        have hsub : subTs = tp0 :: l := (Option.some_inj.mp h).symm
        have h0' : ts.find? (fun tp => tp.name == n0) = some tp0 := h0
        have hname : tp0.name = n0 := by
          have := List.find?_some h0'
          simpa using this
        rcases List.mem_cons.mp hn with hn0 | hrest
        · subst hn0
          have hposb : (tp0.name == n) = true := by simp [hname]
          rw [hsub]
          unfold selectTemplate
          simp only [List.find?, hposb, h0']
        · have hn0ne : n0 ≠ n := by
            intro heq
            exact (List.nodup_cons.mp hnd).1 (heq ▸ hrest)
          have hneb : (tp0.name == n) = false := by
            simp only [beq_eq_false_iff_ne, hname, ne_eq]
            exact hn0ne
          rw [hsub]
          unfold selectTemplate
          simp only [List.find?, hneb]
          exact ih l h1 (List.nodup_cons.mp hnd).2 n hrest

theorem selectAll_eq_of_selects (ts ts' : List Template) :
    ∀ names : List String, (∀ n ∈ names, selectTemplate ts' n = selectTemplate ts n) →
      selectAll ts' names = selectAll ts names := by
  intro names
  induction names with
  | nil => intro _; rfl
  | cons n0 rest ih =>
    intro h
    simp only [selectAll]
    rw [h n0 (List.mem_cons_self n0 rest), ih (fun n hn => h n (List.mem_cons_of_mem n0 hn))]

/-- C5 amended (the claim as stated is refuted by
`c5_counterexample_subset_not_idempotent`): `subset(names)` is idempotent
for every instance whose Distance Matrix is absent — subsetting the
subset by the same names succeeds and returns the same object. -/
theorem c5_subset_idempotent_without_dist_mat (t : CTribe) (names : List String) (s : CTribe)
    (hdm : t.dist_mat = none) (hs : getSubset t names = some s) :
    getSubset s names = some s := by
  classical
  unfold getSubset at hs
  split at hs
  · exact absurd hs (by simp)
  split at hs
  · exact absurd hs (by simp)
  rename_i hall hnn
  have hsub : ∀ n ∈ names, n ∈ t.clusters.names := by
    have h1 := of_not_not hall
    simpa using h1
  have hnn' : names.Nodup := of_not_not hnn
  match hsel : selectAll t.templates names with
  | none => rw [hsel] at hs; exact absurd hs (by simp)
  | some subTs =>
    rw [hsel, hdm] at hs
    have hsE : s = ⟨subTs, ⟨t.clusters.cols, subsetRows t names⟩, none, t.cluster_kwargs⟩ :=
      (Option.some_inj.mp hs).symm
    subst hsE
    have hsel2 : selectAll subTs names = some subTs := by
      rw [selectAll_eq_of_selects t.templates subTs names
        (selectTemplate_selectAll t.templates names subTs hsel hnn')]
      exact hsel
    have hmem2 : ∀ n ∈ names, n ∈ (subsetRows t names).map CRow.name := by
      intro n hn
      obtain ⟨r, hr, hrn⟩ := List.mem_map.mp (by
        simpa [ClustersDF.names] using hsub n hn)
      refine List.mem_map.mpr ⟨r, ?_, hrn⟩
      refine List.mem_filter.mpr ⟨hr, ?_⟩
      rw [hrn]
      simpa using hn

    have hall2 : (names.all fun n =>
        (ClustersDF.mk t.clusters.cols (subsetRows t names)).names.contains n) = true := by
      rw [List.all_eq_true]
      intro n hn
      simpa [ClustersDF.names] using hmem2 n hn
    have hrows2 : subsetRows
        ⟨subTs, ⟨t.clusters.cols, subsetRows t names⟩, none, t.cluster_kwargs⟩ names
        = subsetRows t names := by
      simp [subsetRows, List.filter_filter]
    unfold getSubset
    rw [if_neg (not_not_intro hall2), if_neg (not_not_intro hnn'), hsel2, hrows2]

/-- C5 counterexample: on the spec's own example instance (templates
`A`, `B`, `C` with a 3×3 distance matrix), `subset(['C','A'])` succeeds,
but subsetting that subset by the same names fails (`IndexError`): the
code re-reads the already 2×2 matrix at the stale recorded `id_no`
values 0 and 2. So `subset` is not idempotent on instances with a
populated Distance Matrix. -/
theorem c5_counterexample_subset_not_idempotent :
    getSubset c1Demo ["C", "A"] = some c1DemoSub ∧
    getSubset c1DemoSub ["C", "A"] = none :=
  ⟨rfl, rfl⟩

/-- The one-name subset of `c2Added` used to witness the amended C5. -/
def c5Sub : CTribe := ⟨[⟨"b", false⟩], ⟨[], [⟨"b", 1, []⟩]⟩, none, []⟩

theorem c5_subset_idempotent_without_dist_mat_witness :
    getSubset c5Sub ["b"] = some c5Sub :=
  c5_subset_idempotent_without_dist_mat c2Added ["b"] c5Sub rfl rfl

/-! ### cluster (source lines 149-204) -/

/-- `self.cluster_kwargs.update({method: kwargs})` (line 196). -/
def kwUpdate (kws : List (String × List (String × KwVal))) (method : String)
    (kw : List (String × KwVal)) : List (String × List (String × KwVal)) :=
  if kws.any (fun p => p.1 == method) then
    kws.map (fun p => if p.1 == method then (method, kw) else p)
  else
    kws ++ [(method, kw)]

/-- One `self.clusters.loc[name, method] = value` write (line 204):
every row carrying the label gets the cell set. (pandas would append a
new row for an unknown label; the delegate assignments used by `cluster`
only ever name the instance's own templates, so that path is outside the
model.) -/
def locSet (rows : List CRow) (nm method : String) (v : Int) : List CRow :=
  rows.map (fun r => if r.name == nm then r.setCell method v else r)

/-- First value for a name in the delegate assignment list. -/
def lookupAsg (asg : List (String × Int)) (nm : String) : Option Int :=
  (asg.find? (fun p => p.1 == nm)).map Prod.snd

/-- The Membership Table write of `ClusteringTribe.cluster(method, **kwargs)`
(lines 196-204), with the delegate's output partition supplied as the
`(name, group)` list `asg` that lines 164-192 accumulate into the
parallel `index`/`values` lists. Fewer than 2 templates raises
`AttributeError` (lines 161-162) before anything is written. The
`self.clusters is None` branch (line 197) is dead: `__init__` always sets
a DataFrame, so a new method concatenates a fresh column aligned by name
(lines 199-201) and an existing method is overwritten cell by cell, keyed
by template name (lines 202-204). -/
def clusterWrite (t : CTribe) (method : String) (asg : List (String × Int))
    (kw : List (String × KwVal)) : Except PyErr CTribe :=
  if t.templates.length < 2 then .error .attributeError
  else
    let kws := kwUpdate t.cluster_kwargs method kw
    if t.clusters.cols.contains method then
      .ok { templates := t.templates,
            clusters := ⟨t.clusters.cols,
              asg.foldl (fun rows p => locSet rows p.1 method p.2) t.clusters.rows⟩,
            dist_mat := t.dist_mat,
            cluster_kwargs := kws }
    else
      .ok { templates := t.templates,
            clusters := ⟨t.clusters.cols ++ [method],
              t.clusters.rows.map (fun r =>
                match lookupAsg asg r.name with
                | some v => r.setCell method v
                | none => r)⟩,
            dist_mat := t.dist_mat,
            cluster_kwargs := kws }

/-! ### Claim C4 -/

theorem cellsGet_map_set (m m' : String) (v : Int) (h : m' ≠ m) :
    ∀ cs : List (String × Int),
      cellsGet (cs.map (fun p => if p.1 == m then (m, v) else p)) m' = cellsGet cs m' := by
  intro cs
  induction cs with
  | nil => rfl
  | cons c rest ih =>
    by_cases hc : c.1 = m
    · have hm : (c.1 == m) = true := by simp [hc]
      have hmne : ((((m, v) : String × Int)).1 == m') = false := by
        simp only [beq_eq_false_iff_ne, ne_eq]
        exact fun he => h he.symm
      have hcne : (c.1 == m') = false := by
        simp only [beq_eq_false_iff_ne, ne_eq, hc]
        exact fun he => h he.symm
      rw [List.map_cons, if_pos hm]
      simp only [cellsGet]
      rw [ih, hmne, hcne]
      rfl
    · have hm : (c.1 == m) = false := by simp [hc]
      rw [List.map_cons, if_neg (by simp [hm])]
      simp only [cellsGet]
      rw [ih]

theorem cellsGet_append_single (m m' : String) (v : Int) (h : m' ≠ m)
    (cs : List (String × Int)) :
    cellsGet (cs ++ [(m, v)]) m' = cellsGet cs m' := by
  induction cs with
  | nil =>
    simp only [List.nil_append, cellsGet]
    have h1 : ((((m, v) : String × Int)).1 == m') = false := by
      simp only [beq_eq_false_iff_ne, ne_eq]
      exact fun he => h he.symm
    rw [h1]
    rfl
  | cons c rest ih =>
    simp only [List.cons_append, cellsGet, List.append_eq]
    rw [ih]

/-- Writing one method's cell leaves every other method's cell alone. -/
theorem cell_setCell_ne (r : CRow) (m m' : String) (v : Int) (h : m' ≠ m) :
    (r.setCell m v).cell m' = r.cell m' := by
  unfold CRow.setCell CRow.cell
  split
  · simp only
    rw [cellsGet_map_set m m' v h]
  · simp only
    rw [cellsGet_append_single m m' v h]

/-- The projection of a row that claim C4 says `cluster` must not touch:
its name, its recorded `id_no`, and its cell for an unrelated method. -/
def rowProj (m' : String) (r : CRow) : String × Nat × Option Int :=
  (r.name, r.id_no, r.cell m')

theorem rowProj_setCell (m m' : String) (v : Int) (h : m' ≠ m) (r : CRow) :
    rowProj m' (r.setCell m v) = rowProj m' r := by
  unfold rowProj
  have h1 : (r.setCell m v).name = r.name := by unfold CRow.setCell; split <;> rfl
  have h2 : (r.setCell m v).id_no = r.id_no := by unfold CRow.setCell; split <;> rfl
  rw [h1, h2, cell_setCell_ne r m m' v h]

theorem rowProj_locSet (m m' nm : String) (v : Int) (h : m' ≠ m) (rows : List CRow) :
    (locSet rows nm m v).map (rowProj m') = rows.map (rowProj m') := by
  unfold locSet
  rw [List.map_map]
  apply List.map_congr_left
  intro r _
  simp only [Function.comp_apply]
  split
  · exact rowProj_setCell m m' v h r
  · rfl

theorem rowProj_locSet_foldl (m m' : String) (h : m' ≠ m) (asg : List (String × Int)) :
    ∀ rows : List CRow,
      (asg.foldl (fun rows p => locSet rows p.1 m p.2) rows).map (rowProj m')
        = rows.map (rowProj m') := by
  induction asg with
  | nil => intro rows; rfl
  | cons p rest ih =>
    intro rows
    simp only [List.foldl_cons]
    rw [ih (locSet rows p.1 m p.2), rowProj_locSet m m' p.1 p.2 h rows]

/-- C4 (confirmed): re-running `cluster` for a method `m2` (whether `m2`
is new or already a column) rewrites only the `m2` column, cell by cell
keyed by template name; for any other method `m1` every template keeps
its name, its `id_no` and its `m1` group value. -/
theorem c4_cluster_leaves_other_columns_untouched (t : CTribe) (m1 m2 : String)
    (asg : List (String × Int)) (kw : List (String × KwVal)) (t' : CTribe)
    (hm : m1 ≠ m2) (hm1 : m1 ∈ t.clusters.cols)
    (hok : clusterWrite t m2 asg kw = .ok t') :
    t'.clusters.rows.map (rowProj m1) = t.clusters.rows.map (rowProj m1) ∧
    m1 ∈ t'.clusters.cols := by
  unfold clusterWrite at hok
  split at hok
  · exact absurd hok (by simp)
  split at hok
  · have ht' : t' =
        { templates := t.templates,
          clusters := ⟨t.clusters.cols,
            asg.foldl (fun rows p => locSet rows p.1 m2 p.2) t.clusters.rows⟩,
          dist_mat := t.dist_mat,
          cluster_kwargs := kwUpdate t.cluster_kwargs m2 kw } := by
      cases hok
      rfl
    rw [ht']
    exact ⟨rowProj_locSet_foldl m2 m1 hm asg t.clusters.rows, hm1⟩
  · have ht' : t' =
        { templates := t.templates,
          clusters := ⟨t.clusters.cols ++ [m2],
            t.clusters.rows.map (fun r =>
              match lookupAsg asg r.name with
              | some v => r.setCell m2 v
              | none => r)⟩,
          dist_mat := t.dist_mat,
          cluster_kwargs := kwUpdate t.cluster_kwargs m2 kw } := by
      cases hok
      rfl
    rw [ht']
    constructor
    · rw [List.map_map]
      apply List.map_congr_left
      intro r _
      simp only [Function.comp_apply]
      split
      · exact rowProj_setCell m2 m1 _ hm r
      · rfl
    · exact List.mem_append_left _ hm1

/-- A two-template instance on which the `geo` method has been run. -/
def c4T : CTribe :=
  ⟨[⟨"x", false⟩, ⟨"y", false⟩],
   ⟨["geo"], [⟨"x", 0, [("geo", 0)]⟩, ⟨"y", 1, [("geo", 1)]⟩]⟩,
   none, []⟩

/-- The state after `cluster('corr', ...)` assigns both templates to
group 0. -/
def c4T' : CTribe :=
  ⟨[⟨"x", false⟩, ⟨"y", false⟩],
   ⟨["geo", "corr"], [⟨"x", 0, [("geo", 0), ("corr", 0)]⟩, ⟨"y", 1, [("geo", 1), ("corr", 0)]⟩]⟩,
   none, [("corr", [])]⟩

theorem c4_cluster_leaves_other_columns_untouched_witness :
    c4T'.clusters.rows.map (rowProj "geo") = c4T.clusters.rows.map (rowProj "geo") ∧
    "geo" ∈ c4T'.clusters.cols :=
  c4_cluster_leaves_other_columns_untouched c4T "geo" "corr" [("x", 0), ("y", 0)] [] c4T'
    (by decide) (by decide) rfl

/-! ### Membership Table reload (source lines 581-597) and Claim C7 -/

/-- Column union of `pd.concat(..., axis=0)`. -/
def unionCols (a b : List String) : List String :=
  a ++ b.filter (fun c => ¬ a.contains c)

/-- Lines 582-597 of `_read_from_folder`: reload the Membership Table.
The file's rows (if any) are FIRST filtered down to the loaded template
names; the "all or nothing" set comparison is then made between the
FILTERED row names and the loaded names, so rows the filter dropped are
not seen by the check; on success the kept rows are concatenated onto the
current table, otherwise (`Logger.error`) nothing is merged. -/
def mergeClusters (cur : ClustersDF) (file : Option ClustersDF) (loaded : List String) :
    ClustersDF :=
  let clusters := match file with
    | some c => c
    | none => ClustersDF.mk [] []
  if clusters.rows.isEmpty then cur
  else
    let filtered := clusters.rows.filter (fun r => loaded.contains r.name)
    if (filtered.map CRow.name).toFinset = loaded.toFinset then
      ⟨unionCols cur.cols clusters.cols, cur.rows ++ filtered⟩
    else cur

/-- C7 counterexample: a table file with rows `a`, `b` while only
template `a` loaded. The file's row-name set `{a, b}` does not match the
loaded set `{a}`, so the claim demands the whole table load be rejected
with no rows merged — but the code merges the matching row `a`. -/
theorem c7_counterexample_partial_merge :
    mergeClusters ClustersDF.empty
        (some ⟨["m"], [⟨"a", 0, [("m", 0)]⟩, ⟨"b", 1, [("m", 1)]⟩]⟩) ["a"]
      = ⟨["m"], [⟨"a", 0, [("m", 0)]⟩]⟩ ∧
    (⟨["m"], [⟨"a", 0, [("m", 0)]⟩, ⟨"b", 1, [("m", 1)]⟩]⟩ : ClustersDF).names.toFinset
      ≠ (["a"] : List String).toFinset := by
  constructor
  · rfl
  · decide

/-- C7 amended: the table load is not "all or nothing" against the
file's full row set. A non-empty table file is merged if and only if
every successfully loaded template name has a row in the file; in that
case exactly the file rows whose names were loaded are merged (rows for
templates that were not loaded are silently dropped), and only when some
loaded template has no row in the file is the entire load rejected. -/
theorem c7_merge_iff_loaded_subset_of_file (cur : ClustersDF) (f : ClustersDF)
    (loaded : List String) (hne : f.rows ≠ []) :
    ((∀ n ∈ loaded, n ∈ f.names) →
      mergeClusters cur (some f) loaded
        = ⟨unionCols cur.cols f.cols,
           cur.rows ++ f.rows.filter (fun r => loaded.contains r.name)⟩) ∧
    ((¬ ∀ n ∈ loaded, n ∈ f.names) →
      mergeClusters cur (some f) loaded = cur) := by
  classical
  have hemp : f.rows.isEmpty = false := by
    cases hf : f.rows with
    | nil => exact absurd hf hne
    | cons a l => rfl
  have hiff : (((f.rows.filter (fun r => loaded.contains r.name)).map CRow.name).toFinset
      = loaded.toFinset) ↔ (∀ n ∈ loaded, n ∈ f.names) := by
    constructor
    · intro h n hn
      have hmem : n ∈ ((f.rows.filter (fun r => loaded.contains r.name)).map CRow.name).toFinset := by
        rw [h]
        exact List.mem_toFinset.mpr hn
      obtain ⟨r, hr, hrn⟩ := List.mem_map.mp (List.mem_toFinset.mp hmem)
      exact List.mem_map.mpr ⟨r, (List.mem_filter.mp hr).1, hrn⟩
    · intro h
      ext x
      simp only [List.mem_toFinset, List.mem_map, List.mem_filter]
      constructor
      · rintro ⟨r, ⟨_, hc⟩, hrn⟩
        subst hrn
        simpa using hc
      · intro hx
        obtain ⟨r, hr, hrn⟩ := List.mem_map.mp (h x hx)
        refine ⟨r, ⟨hr, ?_⟩, hrn⟩
        rw [hrn]
        simpa using hx
  constructor
  · intro h
    unfold mergeClusters
    simp only [hemp, Bool.false_eq_true, if_false, if_pos (hiff.mpr h)]
  · intro h
    unfold mergeClusters
    simp only [hemp, Bool.false_eq_true, if_false,
      if_neg (fun hc => h (hiff.mp hc))]

theorem c7_merge_iff_loaded_subset_of_file_witness :
    ((∀ n ∈ (["a"] : List String), n ∈ (⟨["m"], [⟨"a", 0, []⟩]⟩ : ClustersDF).names) →
      mergeClusters ClustersDF.empty (some ⟨["m"], [⟨"a", 0, []⟩]⟩) ["a"]
        = ⟨unionCols ClustersDF.empty.cols ["m"],
           ClustersDF.empty.rows ++
             (⟨["m"], [⟨"a", 0, []⟩]⟩ : ClustersDF).rows.filter
               (fun r => (["a"] : List String).contains r.name)⟩) ∧
    ((¬ ∀ n ∈ (["a"] : List String), n ∈ (⟨["m"], [⟨"a", 0, []⟩]⟩ : ClustersDF).names) →
      mergeClusters ClustersDF.empty (some ⟨["m"], [⟨"a", 0, []⟩]⟩) ["a"]
        = ClustersDF.empty) :=
  c7_merge_iff_loaded_subset_of_file ClustersDF.empty ⟨["m"], [⟨"a", 0, []⟩]⟩ ["a"]
    (by decide)

/-! ### extend (source lines 85-106) and Claim C8 -/

/-- An element of the iterable handed to `extend`: either an eqcorrscan
`Template` or something of another type. -/
inductive ExtElem where
  | tmpl (tp : Template)
  | notTemplate
deriving DecidableEq, Repr

def ExtElem.isTemplate : ExtElem → Bool
  | .tmpl _ => true
  | .notTemplate => false

/-- The runtime shape of `extend`'s `other` argument, matching its
`isinstance`/`hasattr` dispatch: a single `Template`, a `Tribe`, some
other iterable, or a non-iterable. -/
inductive ExtInput where
  | single (tp : Template)
  | tribe (ts : List Template)
  | iter (es : List ExtElem)
  | notIterable
deriving DecidableEq, Repr

inductive ExtOutcome where
  | ok
  | raised (e : PyErr)
deriving DecidableEq, Repr

/-- The `for template in other: self.add_template(template)` loop of the
`Tribe` branch; an exception leaves the adds already made in place. -/
def extendLoop (t : CTribe) (ts : List Template) (rd : Bool) : CTribe × ExtOutcome :=
  match ts with
  | [] => (t, .ok)
  | tp :: rest =>
    match addTemplate t tp rd with
    | .ok t' => extendLoop t' rest rd
    | .error e => (t, .raised e)

/-- `ClusteringTribe.extend(other, **options)` (lines 85-106). In the
generic-iterable branch the guard `all(isinstance(_e, Template) ...)` has
NO else: a heterogeneous collection falls through silently, applying
nothing and raising nothing. (When the guard passes on a non-empty plain
iterable the loop body reads the undefined name `template` — the loop
variable is the typo `tempate` — and raises `NameError` before any add.)
A non-iterable only logs a warning. -/
def extendTribe (t : CTribe) (other : ExtInput) (rd : Bool) : CTribe × ExtOutcome :=
  match other with
  | .single tp =>
    match addTemplate t tp rd with
    | .ok t' => (t', .ok)
    | .error e => (t, .raised e)
  | .tribe ts => extendLoop t ts rd
  | .iter es =>
    if es.all ExtElem.isTemplate then
      match es with
      | [] => (t, .ok)
      | _ :: _ => (t, .raised .nameError)
    else (t, .ok)
  | .notIterable => (t, .ok)

/-- C8 counterexample: `extend` of a heterogeneous collection (one valid
template, one invalid element) applies no element — but it does NOT
raise `TypeError`; the call returns silently with the instance
unchanged, because the homogeneity guard has no else branch. -/
theorem c8_counterexample_heterogeneous_extend_silent :
    extendTribe c2Base (.iter [.tmpl ⟨"b", false⟩, .notTemplate]) false = (c2Base, .ok) :=
  rfl

/-- C8 amended: on every heterogeneous collection `extend` applies no
element — the template sequence and the Membership Table are unchanged —
but instead of failing with `TypeError` the call is a silent no-op (no
exception, nothing even logged). -/
theorem c8_heterogeneous_extend_is_silent_no_op (t : CTribe) (es : List ExtElem) (rd : Bool)
    (hhet : ¬ (es.all ExtElem.isTemplate = true)) :
    extendTribe t (.iter es) rd = (t, .ok) := by
  simp only [extendTribe]
  rw [if_neg hhet]

theorem c8_heterogeneous_extend_is_silent_no_op_witness :
    extendTribe c2Added (.iter [.notTemplate, .tmpl ⟨"c", false⟩]) false = (c2Added, .ok) :=
  c8_heterogeneous_extend_is_silent_no_op c2Added [.notTemplate, .tmpl ⟨"c", false⟩] false
    (by decide)

/-! ### select_cluster (source lines 238-258) and Claim C9 -/

/-- `ClusteringTribe.select_cluster(method, index)` (lines 238-258),
returning the Python result together with a flag recording whether the
"method not yet run" warning was logged. The `self.clusters is None`
early return is dead (`__init__` always sets a DataFrame). When `method`
is not a column the code logs the warning and then FALLS THROUGH to
`self.clusters[self.clusters[method] == index]`, which raises `KeyError`.
A failed `get_subset` (its `ValueError`/`IndexError` paths) propagates. -/
def selectClusterOp (t : CTribe) (method : String) (idx : Int) :
    Except PyErr (Option CTribe) × Bool :=
  if t.clusters.cols.contains method then
    let names := (t.clusters.rows.filter (fun r => r.cell method == some idx)).map CRow.name
    match getSubset t names with
    | some s => (.ok (some s), false)
    | none => (.error .valueError, false)
  else
    (.error .keyError, true)

/-- C9 (code bug): `select_cluster` with a method that is not a column
logs the "not yet run" warning but then raises `KeyError` instead of
returning — the claim (and the warning's evident intent) is to fail by
logging only. Evaluated at the concrete failing input: the fresh
one-template instance and the never-run method `geometry`. -/
theorem c9_unknown_method_logs_then_raises :
    selectClusterOp c2Base "geometry" 0 = (.error .keyError, true) :=
  rfl

/-! ### Archive codec (write: lines 411-496; read: lines 498-533 and
_read_from_folder: lines 535-629) -/

/-- Is `c` a decimal digit character? -/
def isDigitChar (c : Char) : Bool := decide (48 ≤ c.toNat ∧ c.toNat ≤ 57)

/-- Is `c` a letter or underscore? (The character class of the method
names and keyword strings the positive round-trip theorem covers.) -/
def alphaChar (c : Char) : Bool :=
  decide ((65 ≤ c.toNat ∧ c.toNat ≤ 90) ∨ (97 ≤ c.toNat ∧ c.toNat ≤ 122) ∨ c.toNat = 95)

/-- ASCII lowercase of one character (`str.lower` on the letters the
safe-string check needs). -/
def lowerChar (c : Char) : Char :=
  if 65 ≤ c.toNat ∧ c.toNat ≤ 90 then Char.ofNat (c.toNat + 32) else c

/-- `s.lower()` on the character list. -/
def strLower (s : String) : String := ⟨s.data.map lowerChar⟩

/-- Value of a string of digit characters, most significant first. -/
def digitsVal (cs : List Char) : Nat :=
  cs.foldl (fun a c => 10 * a + (c.toNat - 48)) 0

/-- The digits of `n` left-padded with zeros to at least `e + 1`
characters. -/
def padCore (n e : Nat) : List Char :=
  List.replicate (e + 1 - (decDigits n).length) '0' ++ decDigits n

/-- Python `repr` of the decimal number `m / 10^e`: the digits of `|m|`
left-padded with zeros to at least `e + 1` digits, a decimal point before
the last `e` digits when `e > 0` (so `repr(0.3) = "0.3"`,
`repr(2) = "2"`, `repr(-1.0) = "-1.0"`), and a leading minus sign for
negative values. -/
def renderDec (m : Int) (e : Nat) : String :=
  ⟨(if m < 0 then ['-'] else []) ++
    (padCore m.natAbs e).take ((padCore m.natAbs e).length - e) ++
    (if e = 0 then [] else
      '.' :: (padCore m.natAbs e).drop ((padCore m.natAbs e).length - e))⟩

/-- `float(_r)` on an unsigned literal: leading digits, then optionally a
point and further digits; anything else fails. (Python's `float` also
accepts exponent forms, `inf`/`nan` and stray whitespace; the theorems
below only quantify over strings on which this model and Python agree.) -/
def parseUnsigned (cs : List Char) : Option (Int × Nat) :=
  if (cs.takeWhile isDigitChar).isEmpty then none
  else
    match cs.drop (cs.takeWhile isDigitChar).length with
    | [] => some ((digitsVal (cs.takeWhile isDigitChar) : Int), 0)
    | c :: fp =>
      if c = '.' then
        if fp.isEmpty then none
        else if fp.all isDigitChar then
          some ((digitsVal (cs.takeWhile isDigitChar) * 10 ^ fp.length + digitsVal fp : Int),
            fp.length)
        else none
      else none

/-- `float(_r)`, with an optional leading minus sign. -/
def parseDec (s : String) : Option (Int × Nat) :=
  match s.data with
  | [] => none
  | c :: rest =>
    if c = '-' then (parseUnsigned rest).map (fun p => (-p.1, p.2))
    else parseUnsigned (c :: rest)

/-- Serialization of one keyword value (`write`, lines 478-484): strings
are written raw by the f-string, everything else through `repr`. -/
def writeVal : KwVal → String
  | .str s => s
  | .bool true => "True"
  | .bool false => "False"
  | .num m e => renderDec m e
  | .pynone => "None"
  | .nan => "nan"

/-- The read-side coercion of one cell (`_read_from_folder`, lines
606-618): `'True'`/`'False'` become booleans, then `float(...)` is
tried, and on `ValueError` the string is kept. -/
def readCoerce (s : String) : KwVal :=
  if s == "True" then .bool true
  else if s == "False" then .bool false
  else
    match parseDec s with
    | some p => .num p.1 p.2
    | none => .str s

/-- The default NA words of `pd.read_csv` (line 605): a cell holding any
of these loads as NaN before the coercion loop ever sees it. -/
def naWords : List String :=
  ["", "#N/A", "#N/A N/A", "#NA", "-1.#IND", "-1.#QNAN", "-NaN", "-nan",
   "1.#IND", "1.#QNAN", "<NA>", "N/A", "NA", "NULL", "NaN", "None", "n/a",
   "nan", "null"]

/-- A string the codec passes through unchanged and on which this model
agrees with Python: letters and underscores only, none of the words
Python `float` would still coerce, and none of `read_csv`'s NA words. -/
def safeStr (s : String) : Bool :=
  s.data.all alphaChar && s != "True" && s != "False" &&
    strLower s != "inf" && strLower s != "infinity" && strLower s != "nan" &&
    !naWords.contains s

/-- The keyword values whose round trip the amended C3 covers: booleans,
decimal numbers, and safe strings — everything except `None` (whose
written word `'None'` is an NA word and loads back as NaN), NaN itself,
and exotic strings. -/
def kwSafe : KwVal → Bool
  | .bool _ => true
  | .num _ _ => true
  | .str s => safeStr s
  | .pynone => false
  | .nan => false

theorem digitChar_toNat (d : Nat) (h : d < 10) : (digitChar d).toNat = 48 + d := by
  interval_cases d <;> rfl

theorem isDigitChar_digitChar (d : Nat) (h : d < 10) : isDigitChar (digitChar d) = true := by
  interval_cases d <;> rfl

theorem decDigitsCore_all_digits : ∀ (fuel n : Nat), ∀ c ∈ decDigitsCore fuel n,
    isDigitChar c = true := by
  intro fuel
  induction fuel with
  | zero => intro n c hc; cases hc
  | succ fuel ih =>
    intro n c hc
    unfold decDigitsCore at hc
    split at hc
    · cases hc
    · rcases List.mem_append.mp hc with h | h
      · exact ih (n / 10) c h
      · simp only [List.mem_singleton] at h
        subst h
        exact isDigitChar_digitChar (n % 10) (Nat.mod_lt n (by norm_num))

theorem decDigits_all_digits (n : Nat) : ∀ c ∈ decDigits n, isDigitChar c = true := by
  unfold decDigits
  split
  · intro c hc
    simp only [List.mem_singleton] at hc
    subst hc
    rfl
  · exact decDigitsCore_all_digits (n + 1) n

theorem decDigits_ne_nil (n : Nat) : decDigits n ≠ [] := by
  unfold decDigits
  split
  · simp
  · rename_i h
    show decDigitsCore (n + 1) n ≠ []
    unfold decDigitsCore
    rw [if_neg h]
    simp

theorem digitsVal_shift (b : List Char) :
    ∀ s : Nat, b.foldl (fun a c => 10 * a + (c.toNat - 48)) s
      = s * 10 ^ b.length + digitsVal b := by
  induction b with
  | nil => intro s; simp [digitsVal]
  | cons c rest ih =>
    intro s
    simp only [List.foldl_cons, List.length_cons]
    rw [ih (10 * s + (c.toNat - 48))]
    have h0 : digitsVal (c :: rest) = (c.toNat - 48) * 10 ^ rest.length + digitsVal rest := by
      show List.foldl _ _ (c :: rest) = _
      rw [List.foldl_cons, ih (10 * 0 + (c.toNat - 48))]
      ring_nf
    rw [h0, pow_succ]
    ring

theorem digitsVal_append (a b : List Char) :
    digitsVal (a ++ b) = digitsVal a * 10 ^ b.length + digitsVal b := by
  show List.foldl _ _ (a ++ b) = _
  rw [List.foldl_append]
  exact digitsVal_shift b (digitsVal a)

theorem digitsVal_single (c : Char) : digitsVal [c] = c.toNat - 48 := by
  show List.foldl _ _ [c] = _
  simp [List.foldl_cons]

theorem digitsVal_decDigitsCore : ∀ (fuel n : Nat), n < fuel →
    digitsVal (decDigitsCore fuel n) = n := by
  intro fuel
  induction fuel with
  | zero => intro n h; omega
  | succ fuel ih =>
    intro n h
    unfold decDigitsCore
    split
    · rename_i h0
      subst h0
      rfl
    · rename_i h0
      rw [digitsVal_append, digitsVal_single,
        digitChar_toNat (n % 10) (Nat.mod_lt n (by norm_num)),
        ih (n / 10) (by omega)]
      simp only [List.length_cons, List.length_nil, pow_one]
      omega

theorem digitsVal_decDigits (n : Nat) : digitsVal (decDigits n) = n := by
  unfold decDigits
  split
  · rename_i h
    subst h
    rfl
  · exact digitsVal_decDigitsCore (n + 1) n (Nat.lt_succ_self n)

theorem digitsVal_replicate_zero (k : Nat) : digitsVal (List.replicate k '0') = 0 := by
  induction k with
  | zero => rfl
  | succ k ih =>
    show List.foldl _ _ (List.replicate (k + 1) '0') = _
    rw [List.replicate_succ, List.foldl_cons]
    have h0 : (10 * 0 + ('0'.toNat - 48)) = 0 := rfl
    rw [h0]
    exact ih

theorem takeWhile_all_append (p : Char → Bool) (a : List Char) (c : Char) (b : List Char)
    (ha : ∀ x ∈ a, p x = true) (hc : p c = false) :
    (a ++ c :: b).takeWhile p = a := by
  induction a with
  | nil => simp [List.takeWhile, hc]
  | cons x xs ih =>
    simp only [List.cons_append, List.takeWhile, ha x (List.mem_cons_self x xs),
      List.append_eq]
    rw [ih (fun y hy => ha y (List.mem_cons_of_mem x hy))]

theorem takeWhile_all_self (p : Char → Bool) (a : List Char)
    (ha : ∀ x ∈ a, p x = true) : a.takeWhile p = a := by
  induction a with
  | nil => rfl
  | cons x xs ih =>
    simp only [List.takeWhile, ha x (List.mem_cons_self x xs)]
    rw [ih (fun y hy => ha y (List.mem_cons_of_mem x hy))]

theorem padCore_all_digits (n e : Nat) : ∀ c ∈ padCore n e, isDigitChar c = true := by
  intro c hc
  rcases List.mem_append.mp hc with h | h
  · have : c = '0' := List.eq_of_mem_replicate h
    subst this
    rfl
  · exact decDigits_all_digits n c h

theorem padCore_length (n e : Nat) : e + 1 ≤ (padCore n e).length := by
  unfold padCore
  rw [List.length_append, List.length_replicate]
  have h1 : 1 ≤ (decDigits n).length := by
    cases hd : decDigits n with
    | nil => exact absurd hd (decDigits_ne_nil n)
    | cons a l => simp
  omega

theorem digitsVal_padCore (n e : Nat) : digitsVal (padCore n e) = n := by
  unfold padCore
  rw [digitsVal_append, digitsVal_replicate_zero, digitsVal_decDigits]
  ring

theorem parseUnsigned_all_digits (ds : List Char) (hne : ds ≠ [])
    (hd : ∀ x ∈ ds, isDigitChar x = true) :
    parseUnsigned ds = some ((digitsVal ds : Int), 0) := by
  unfold parseUnsigned
  rw [takeWhile_all_self _ _ hd, List.drop_length]
  have hemp : ds.isEmpty = false := by
    cases ds with
    | nil => exact absurd rfl hne
    | cons a l => rfl
  rw [hemp]
  simp only [Bool.false_eq_true, if_false]

theorem parseUnsigned_append_frac (ip fp : List Char) (hipne : ip ≠ [])
    (hipd : ∀ x ∈ ip, isDigitChar x = true) (hfpne : fp ≠ [])
    (hfpd : ∀ x ∈ fp, isDigitChar x = true) :
    parseUnsigned (ip ++ '.' :: fp)
      = some ((digitsVal ip * 10 ^ fp.length + digitsVal fp : Int), fp.length) := by
  unfold parseUnsigned
  rw [takeWhile_all_append _ _ _ _ hipd (by rfl)]
  have hemp : ip.isEmpty = false := by
    cases ip with
    | nil => exact absurd rfl hipne
    | cons a l => rfl
  rw [hemp]
  simp only [Bool.false_eq_true, if_false]
  rw [List.drop_left]
  dsimp only
  rw [if_pos rfl]
  have hfpe : fp.isEmpty = false := by
    cases fp with
    | nil => exact absurd rfl hfpne
    | cons a l => rfl
  rw [hfpe, List.all_eq_true.mpr hfpd]
  simp only [Bool.false_eq_true, if_false, if_true]

theorem parseUnsigned_padCore_frac (n e : Nat) (he : e ≠ 0) :
    parseUnsigned ((padCore n e).take ((padCore n e).length - e) ++
        '.' :: (padCore n e).drop ((padCore n e).length - e)) = some ((n : Int), e) := by
  have hlen := padCore_length n e
  have hdig := padCore_all_digits n e
  have hiplen : 1 ≤ ((padCore n e).take ((padCore n e).length - e)).length := by
    rw [List.length_take]
    omega
  have hfplen : ((padCore n e).drop ((padCore n e).length - e)).length = e := by
    rw [List.length_drop]
    omega
  have hipne : (padCore n e).take ((padCore n e).length - e) ≠ [] := by
    intro h
    rw [h] at hiplen
    simp at hiplen
  have hfpne : (padCore n e).drop ((padCore n e).length - e) ≠ [] := by
    intro h
    rw [h] at hfplen
    simp at hfplen
    omega
  rw [parseUnsigned_append_frac _ _ hipne
    (fun x hx => hdig x (List.mem_of_mem_take hx)) hfpne
    (fun x hx => hdig x (List.mem_of_mem_drop hx))]
  have hval : digitsVal ((padCore n e).take ((padCore n e).length - e)) *
      10 ^ ((padCore n e).drop ((padCore n e).length - e)).length +
      digitsVal ((padCore n e).drop ((padCore n e).length - e)) = n := by
    rw [← digitsVal_append, List.take_append_drop]
    exact digitsVal_padCore n e
  rw [hfplen] at hval ⊢
  congr 1
  rw [Prod.mk.injEq]
  refine ⟨?_, rfl⟩
  exact_mod_cast hval

theorem parseUnsigned_padCore_whole (n : Nat) :
    parseUnsigned (padCore n 0) = some ((n : Int), 0) := by
  have hlen := padCore_length n 0
  have hne : padCore n 0 ≠ [] := by
    intro h
    rw [h] at hlen
    simp at hlen
  rw [parseUnsigned_all_digits _ hne (padCore_all_digits n 0), digitsVal_padCore]

theorem parse_renderDec (m : Int) (e : Nat) : parseDec (renderDec m e) = some (m, e) := by
  have hlen := padCore_length m.natAbs e
  have hdig := padCore_all_digits m.natAbs e
  have hiplen : 1 ≤ ((padCore m.natAbs e).take ((padCore m.natAbs e).length - e)).length := by
    rw [List.length_take]
    omega
  have hcoreAll : parseUnsigned ((padCore m.natAbs e).take ((padCore m.natAbs e).length - e) ++
      (if e = 0 then [] else
        '.' :: (padCore m.natAbs e).drop ((padCore m.natAbs e).length - e)))
      = some ((m.natAbs : Int), e) := by
    by_cases he : e = 0
    · subst he
      rw [if_pos rfl, List.append_nil, Nat.sub_zero, List.take_length]
      exact parseUnsigned_padCore_whole m.natAbs
    · rw [if_neg he]
      exact parseUnsigned_padCore_frac m.natAbs e he
  rcases Int.lt_or_le m 0 with hm | hm
  · -- negative: a leading '-' followed by the unsigned literal
    have hneg : (m.natAbs : Int) = -m := Int.ofNat_natAbs_of_nonpos (le_of_lt hm)
    have hdata : (renderDec m e).data = '-' ::
        ((padCore m.natAbs e).take ((padCore m.natAbs e).length - e) ++
          (if e = 0 then [] else
            '.' :: (padCore m.natAbs e).drop ((padCore m.natAbs e).length - e))) := by
      unfold renderDec
      rw [if_pos hm]
      rfl
    unfold parseDec
    rw [hdata]
    dsimp only
    rw [if_pos rfl, hcoreAll]
    simp only [Option.map_some']
    rw [hneg, neg_neg]
  · -- nonnegative: the unsigned literal, whose head is a digit
    have hpos : (m.natAbs : Int) = m := Int.natAbs_of_nonneg hm
    obtain ⟨c, ip', hip⟩ : ∃ c ip',
        (padCore m.natAbs e).take ((padCore m.natAbs e).length - e) = c :: ip' := by
      cases hip : (padCore m.natAbs e).take ((padCore m.natAbs e).length - e) with
      | nil => rw [hip] at hiplen; simp at hiplen
      | cons c l => exact ⟨c, l, rfl⟩
    have hcd : isDigitChar c = true := by
      have hcmem : c ∈ (padCore m.natAbs e).take ((padCore m.natAbs e).length - e) := by
        rw [hip]
        exact List.mem_cons_self c ip'
      exact hdig c (List.mem_of_mem_take hcmem)
    have hcne : ¬ (c = '-') := by
      intro h
      rw [h] at hcd
      exact absurd hcd (by decide)
    have hdata : (renderDec m e).data = c ::
        (ip' ++ (if e = 0 then [] else
          '.' :: (padCore m.natAbs e).drop ((padCore m.natAbs e).length - e))) := by
      unfold renderDec
      rw [if_neg (by omega : ¬ m < 0), hip]
      rfl
    unfold parseDec
    rw [hdata]
    dsimp only
    rw [if_neg hcne, ← List.cons_append, ← hip, hcoreAll, hpos]

theorem renderDec_head (m : Int) (e : Nat) :
    ∃ c rest, (renderDec m e).data = c :: rest ∧ (c = '-' ∨ isDigitChar c = true) := by
  have hlen := padCore_length m.natAbs e
  have hdig := padCore_all_digits m.natAbs e
  have hiplen : 1 ≤ ((padCore m.natAbs e).take ((padCore m.natAbs e).length - e)).length := by
    rw [List.length_take]
    omega
  obtain ⟨c, ip', hip⟩ : ∃ c ip',
      (padCore m.natAbs e).take ((padCore m.natAbs e).length - e) = c :: ip' := by
    cases hip : (padCore m.natAbs e).take ((padCore m.natAbs e).length - e) with
    | nil => rw [hip] at hiplen; simp at hiplen
    | cons c l => exact ⟨c, l, rfl⟩
  have hcd : isDigitChar c = true := by
    have hcmem : c ∈ (padCore m.natAbs e).take ((padCore m.natAbs e).length - e) := by
      rw [hip]
      exact List.mem_cons_self c ip'
    exact hdig c (List.mem_of_mem_take hcmem)
  rcases Int.lt_or_le m 0 with hm | hm
  · refine ⟨'-', (padCore m.natAbs e).take ((padCore m.natAbs e).length - e) ++
      (if e = 0 then [] else
        '.' :: (padCore m.natAbs e).drop ((padCore m.natAbs e).length - e)), ?_, Or.inl rfl⟩
    unfold renderDec
    rw [if_pos hm]
    rfl
  · refine ⟨c, ip' ++ (if e = 0 then [] else
        '.' :: (padCore m.natAbs e).drop ((padCore m.natAbs e).length - e)), ?_, Or.inr hcd⟩
    unfold renderDec
    rw [if_neg (by omega : ¬ m < 0), hip]
    rfl

theorem renderDec_not_bool_word (m : Int) (e : Nat) :
    (renderDec m e == "True") = false ∧ (renderDec m e == "False") = false := by
  obtain ⟨c, rest, hdata, hc⟩ := renderDec_head m e
  constructor
  · rw [beq_eq_false_iff_ne]
    intro h
    rw [h] at hdata
    have hT : ("True" : String).data = 'T' :: ['r', 'u', 'e'] := rfl
    rw [hT] at hdata
    injection hdata with h1 _
    rw [← h1] at hc
    rcases hc with hc | hc
    · exact absurd hc (by decide)
    · exact absurd hc (by decide)
  · rw [beq_eq_false_iff_ne]
    intro h
    rw [h] at hdata
    have hF : ("False" : String).data = 'F' :: ['a', 'l', 's', 'e'] := rfl
    rw [hF] at hdata
    injection hdata with h1 _
    rw [← h1] at hc
    rcases hc with hc | hc
    · exact absurd hc (by decide)
    · exact absurd hc (by decide)

theorem readCoerce_renderDec (m : Int) (e : Nat) :
    readCoerce (renderDec m e) = KwVal.num m e := by
  obtain ⟨h1, h2⟩ := renderDec_not_bool_word m e
  unfold readCoerce
  rw [h1, h2]
  simp only [Bool.false_eq_true, if_false]
  rw [parse_renderDec]

theorem alpha_not_digit (c : Char) (h : alphaChar c = true) : isDigitChar c = false := by
  simp only [alphaChar, decide_eq_true_eq] at h
  simp only [isDigitChar, decide_eq_false_iff_not]
  omega

theorem alpha_ne_minus (c : Char) (h : alphaChar c = true) : ¬ (c = '-') := by
  intro he
  rw [he] at h
  exact absurd h (by decide)

theorem parseDec_alpha (s : String) (h : s.data.all alphaChar = true) :
    parseDec s = none := by
  unfold parseDec
  cases hd : s.data with
  | nil => rfl
  | cons c rest =>
    have hc : alphaChar c = true := by
      refine List.all_eq_true.mp h c ?_
      rw [hd]
      exact List.mem_cons_self c rest
    dsimp only
    rw [if_neg (alpha_ne_minus c hc)]
    unfold parseUnsigned
    have hds : (c :: rest).takeWhile isDigitChar = [] := by
      simp [List.takeWhile, alpha_not_digit c hc]
    rw [hds]
    rfl

/-- One keyword value survives the write-then-coerce round trip exactly,
provided it is one of the safe shapes (so in particular not `None`). -/
theorem readCoerce_writeVal (v : KwVal) (h : kwSafe v = true) :
    readCoerce (writeVal v) = v := by
  cases v with
  | bool b => cases b <;> rfl
  | num m e => exact readCoerce_renderDec m e
  | str s =>
    have hs : safeStr s = true := h
    simp only [safeStr, Bool.and_eq_true] at hs
    obtain ⟨⟨⟨⟨⟨⟨halpha, hT⟩, hF⟩, _⟩, _⟩, _⟩, _⟩ := hs
    have hT' : (s == "True") = false := by
      cases hbe : (s == "True") with
      | false => rfl
      | true => rw [bne, hbe] at hT; exact absurd hT (by decide)
    have hF' : (s == "False") = false := by
      cases hbe : (s == "False") with
      | false => rfl
      | true => rw [bne, hbe] at hF; exact absurd hF (by decide)
    show readCoerce s = KwVal.str s
    unfold readCoerce
    rw [hT', hF']
    simp only [Bool.false_eq_true, if_false]
    rw [parseDec_alpha s halpha]
  | pynone => exact absurd h (by decide)
  | nan => exact absurd h (by decide)

theorem readCoerce_map_writeVal (kw : List (String × KwVal))
    (h : ∀ q ∈ kw, kwSafe q.2 = true) :
    (kw.map (fun q => (q.1, writeVal q.2))).map (fun q => (q.1, readCoerce q.2)) = kw := by
  induction kw with
  | nil => rfl
  | cons q rest ih =>
    simp only [List.map_cons]
    rw [readCoerce_writeVal q.2 (h q (List.mem_cons_self q rest)),
      ih (fun x hx => h x (List.mem_cons_of_mem q hx))]

/-- Value lookup in one method's keyword list (`ckw[key]`). -/
def kwGet (kw : List (String × KwVal)) (k : String) : Option KwVal :=
  (kw.find? (fun p => p.1 == k)).map Prod.snd

/-- `self.cluster_kwargs[method]`. -/
def kwargsGet (t : CTribe) (method : String) : Option (List (String × KwVal)) :=
  (t.cluster_kwargs.find? (fun p => p.1 == method)).map Prod.snd

/-- Python `corr_thresh == stored` for an input float given as the
decimal `cm / 10^ce`: numeric against numeric compares values (booleans
count as 0/1, as in Python); any other stored type compares unequal. -/
def KwVal.eqNum (v : KwVal) (cm : Int) (ce : Nat) : Bool :=
  match v with
  | .num m e => m * (10 : Int) ^ ce == cm * (10 : Int) ^ e
  | .bool b => (if b then (1 : Int) else 0) * (10 : Int) ^ ce == cm
  | _ => false

/-- Lines 313-316 (and the identical 279-282): bind
`ckw = self.cluster_kwargs['correlation_cluster']` when the column
exists; with no column only `Logger.critical` runs and `ckw` stays
unbound (`none` here — its later use raises `NameError`). A present
column with no kwargs record raises `KeyError`. -/
def bindCkw (t : CTribe) : Except PyErr (Option (List (String × KwVal))) :=
  if t.clusters.cols.contains "correlation_cluster" then
    match kwargsGet t "correlation_cluster" with
    | some ckw => .ok (some ckw)
    | none => .error .keyError
  else .ok none

/-- `ClusteringTribe._get_linkage` (lines 272-301), reduced to its
control flow: the returned value is `some ()` for a computed linkage
matrix `Z` (the scipy computation itself is opaque) or `none` when the
function falls off the end (no `dist_mat`), paired with the number of
times the scipy `linkage` routine was invoked. Reading
`ckw['replace_nan_distances_with']` (line 287) raises `NameError` when
`ckw` is unbound and `KeyError` when the key is missing. The
method/metric defaulting of lines 288-292 only shapes the opaque scipy
call and is not modelled. -/
def getLinkage (t : CTribe) : Except PyErr (Option Unit × Nat) :=
  match bindCkw t with
  | .error e => .error e
  | .ok ckwOpt =>
    match t.dist_mat with
    | none => .ok (none, 0)
    | some _ =>
      match ckwOpt with
      | none => .error .nameError
      | some ckw =>
        match kwGet ckw "replace_nan_distances_with" with
        | none => .error .keyError
        | some _ => .ok (some (), 1)

/-- The value `_cct_regroup` produces, together with the observable
control-flow counters claim C6 is about. -/
structure RegroupOut where
  result : List (String × Option Int)
  linkageCalls : Nat
  fclusterCalls : Nat
  clustersAfter : ClustersDF
deriving DecidableEq, Repr

/-- `ClusteringTribe._cct_regroup(corr_thresh)` (lines 303-333), with the
input threshold as the decimal `cm / 10^ce` and the opaque
`euc.fcluster` output supplied as `fcOut`. Note the order of
operations: `Z = self._get_linkage(...)` runs BEFORE the threshold
comparison, so the linkage routine is invoked even on the fast path; the
`isinstance`/range checks of lines 320-323 only log and never abort; the
equal-threshold branch returns the existing `correlation_cluster` column
without calling `fcluster` and without touching `self.clusters`; the
unequal branch cuts the (possibly `None`) linkage, raising `TypeError`
when `Z` is `None`. -/
def cctRegroup (t : CTribe) (cm : Int) (ce : Nat) (fcOut : List Int) :
    Except PyErr RegroupOut :=
  match bindCkw t with
  | .error e => .error e
  | .ok ckwOpt =>
    match getLinkage t with
    | .error e => .error e
    | .ok (z, lc) =>
      match ckwOpt with
      | none => .error .nameError
      | some ckw =>
        match kwGet ckw "corr_thresh" with
        | none => .error .keyError
        | some v =>
          if v.eqNum cm ce then
            .ok ⟨t.clusters.rows.map (fun r => (r.name, r.cell "correlation_cluster")),
                 lc, 0, t.clusters⟩
          else
            match z with
            | none => .error .typeError
            | some _ =>
              .ok ⟨List.zipWith (fun n v => (n, some v)) (t.clusters.rows.map CRow.name) fcOut,
                   lc, 1, t.clusters⟩

/-- A correlation-clustered two-template instance with recorded
threshold 0.3 and fill policy `'mean'`. -/
def c6T : CTribe :=
  ⟨[⟨"x", false⟩, ⟨"y", false⟩],
   ⟨["correlation_cluster"],
    [⟨"x", 0, [("correlation_cluster", 1)]⟩, ⟨"y", 1, [("correlation_cluster", 1)]⟩]⟩,
   some [[0, 1/5], [1/5, 0]],
   [("correlation_cluster",
     [("corr_thresh", KwVal.num 3 1), ("replace_nan_distances_with", KwVal.str "mean"),
      ("shift_len", KwVal.num 1 0)])]⟩

/-- C6 counterexample: calling regroup on `c6T` with the threshold 0.3
already on record does return the existing assignment and skips the
threshold cut, but the hierarchical linkage routine IS invoked
(`linkageCalls = 1`, not 0): `Z = self._get_linkage(**kwargs)` runs
before the fast-path comparison, so "performs no recomputation (the
linkage routine is not invoked)" is false. -/
theorem c6_counterexample_linkage_invoked_on_fast_path :
    cctRegroup c6T 3 1 [] = .ok ⟨[("x", some 1), ("y", some 1)], 1, 0, c6T.clusters⟩ ∧
    (1 : Nat) ≠ 0 :=
  ⟨rfl, by decide⟩

/-- C6 amended: with a prior correlation run on record and a populated
distance matrix, regroup at the recorded threshold returns exactly the
existing per-template `correlation_cluster` assignment, does not invoke
the threshold-cut (`fcluster`) routine, and leaves the Membership Table
untouched — but the hierarchical linkage routine is invoked exactly once
on every call, fast path included. -/
theorem c6_regroup_fast_path (t : CTribe) (cm : Int) (ce : Nat) (fcOut : List Int)
    (ckw : List (String × KwVal)) (dm : DistMat) (v : KwVal)
    (hcol : t.clusters.cols.contains "correlation_cluster" = true)
    (hkw : kwargsGet t "correlation_cluster" = some ckw)
    (hdm : t.dist_mat = some dm)
    (hrndw : (kwGet ckw "replace_nan_distances_with").isSome = true)
    (hct : kwGet ckw "corr_thresh" = some v)
    (heq : v.eqNum cm ce = true) :
    cctRegroup t cm ce fcOut
      = .ok ⟨t.clusters.rows.map (fun r => (r.name, r.cell "correlation_cluster")),
             1, 0, t.clusters⟩ := by
  have hbind : bindCkw t = .ok (some ckw) := by
    unfold bindCkw
    rw [hcol]
    simp only [if_true]
    rw [hkw]
  obtain ⟨w, hw⟩ := Option.isSome_iff_exists.mp hrndw
  have hlink : getLinkage t = .ok (some (), 1) := by
    unfold getLinkage
    rw [hbind, hdm]
    dsimp only
    rw [hw]
  unfold cctRegroup
  rw [hbind]
  dsimp only
  rw [hlink]
  dsimp only
  rw [hct]
  dsimp only
  rw [if_pos heq]

theorem c6_regroup_fast_path_witness :
    cctRegroup c6T 3 1 [] =
      .ok ⟨c6T.clusters.rows.map (fun r => (r.name, r.cell "correlation_cluster")),
           1, 0, c6T.clusters⟩ :=
  c6_regroup_fast_path c6T 3 1 []
    [("corr_thresh", KwVal.num 3 1), ("replace_nan_distances_with", KwVal.str "mean"),
     ("shift_len", KwVal.num 1 0)]
    [[0, 1/5], [1/5, 0]] (KwVal.num 3 1)
    rfl rfl rfl rfl rfl (by decide)

/-! ### Claim C10: in-place rename in add_template -/

theorem natToDec_injective (a b : Nat) (h : natToDec a = natToDec b) : a = b := by
  have hd : decDigits a = decDigits b := congrArg String.data h
  have hv := digitsVal_decDigits a
  rw [hd, digitsVal_decDigits b] at hv
  exact hv.symm

theorem cand_injective (b delim : String) (j k : Nat)
    (h : b ++ delim ++ natToDec j = b ++ delim ++ natToDec k) : j = k := by
  have hdata : (b ++ delim).data ++ (natToDec j).data
      = (b ++ delim).data ++ (natToDec k).data := by
    have h1 := congrArg String.data h
    rwa [String.data_append, String.data_append] at h1
  have h2 : (natToDec j).data = (natToDec k).data := List.append_cancel_left hdata
  exact natToDec_injective j k (String.ext h2)

/-- If some candidate `basename ++ delim ++ str(k)` with
`start ≤ k < start + fuel` is absent from `matches`, the loop's result is
absent from `matches` (it returns the first such candidate). -/
theorem dedupLoop_not_mem (b delim : String) (mts : List String) :
    ∀ (fuel start : Nat),
      (∃ k, start ≤ k ∧ k < start + fuel ∧ (b ++ delim ++ natToDec k) ∉ mts) →
      dedupLoop b delim mts fuel start ∉ mts := by
  intro fuel
  induction fuel with
  | zero =>
    rintro start ⟨k, h1, h2, _⟩
    omega
  | succ fuel ih =>
    rintro start ⟨k, h1, h2, h3⟩
    unfold dedupLoop
    cases hcb : mts.contains (b ++ delim ++ natToDec start) with
    | false =>
      rw [if_neg (by rw [hcb]; exact Bool.false_ne_true)]
      intro hmem
      have : mts.contains (b ++ delim ++ natToDec start) = true := by simpa using hmem
      rw [hcb] at this
      cases this
    | true =>
      rw [if_pos hcb]
      apply ih (start + 1)
      refine ⟨k, ?_, by omega, h3⟩
      rcases Nat.eq_or_lt_of_le h1 with he | hlt
      · exfalso
        apply h3
        rw [← he]
        simpa using hcb
      · omega

/-- Pigeonhole: among `matches.length + 1` distinct candidates at least
one is not in `matches`, so the Python `while` loop terminates within the
fuel `deduplicateName` supplies. -/
theorem dedup_candidate_exists (b delim : String) (mts : List String) (start : Nat) :
    ∃ k, start ≤ k ∧ k < start + (mts.length + 1) ∧ (b ++ delim ++ natToDec k) ∉ mts := by
  by_contra hcon
  push_neg at hcon
  have hnd : ((List.range (mts.length + 1)).map
      (fun i => b ++ delim ++ natToDec (start + i))).Nodup := by
    refine List.Nodup.map ?_ (List.nodup_range _)
    intro i j hij
    have := cand_injective b delim (start + i) (start + j) hij
    omega
  have hsub : ∀ x ∈ (List.range (mts.length + 1)).map
      (fun i => b ++ delim ++ natToDec (start + i)), x ∈ mts := by
    intro x hx
    obtain ⟨i, hi, hxe⟩ := List.mem_map.mp hx
    subst hxe
    exact hcon (start + i) (by omega)
      (by rw [List.mem_range] at hi; omega)
  have hle : mts.length + 1 ≤ mts.length := by
    calc mts.length + 1
        = ((List.range (mts.length + 1)).map
            (fun i => b ++ delim ++ natToDec (start + i))).length := by simp
      _ = ((List.range (mts.length + 1)).map
            (fun i => b ++ delim ++ natToDec (start + i))).toFinset.card :=
          (List.toFinset_card_of_nodup hnd).symm
      _ ≤ mts.toFinset.card := Finset.card_le_card
          (fun x hx => List.mem_toFinset.mpr (hsub x (List.mem_toFinset.mp hx)))
      _ ≤ mts.length := mts.toFinset_card_le
  omega

theorem baseChars_prefix : ∀ l : List Char, baseChars l <+: l := by
  intro l
  induction l with
  | nil => exact List.nil_prefix
  | cons c rest ih =>
    show baseChars (c :: rest) <+: c :: rest
    unfold baseChars
    split
    · exact List.nil_prefix
    · rename_i c' rest' heq
      injection heq with h1 h2
      subst h1
      subst h2
      rw [List.cons_prefix_cons]
      exact ⟨rfl, ih⟩
    · exact List.nil_prefix

/-- The renamed name `_deduplicate_name` produces for a colliding name is
a fresh name: it is not among the glob matches, and in particular differs
from the colliding name itself. -/
theorem deduplicateName_fresh (indexNames : List String) (other : String)
    (hmem : indexNames.contains other = true) :
    deduplicateName indexNames other "__" 0 ∉
      indexNames.filter (fun n =>
        globPrefix (if strContainsDelim other then strBasename other else other) n) ∧
    deduplicateName indexNames other "__" 0 ≠ other := by
  have hpre : globPrefix
      (if strContainsDelim other then strBasename other else other) other = true := by
    split
    · show (strBasename other).data.isPrefixOf other.data = true
      rw [List.isPrefixOf_iff_prefix]
      exact baseChars_prefix other.data
    · show other.data.isPrefixOf other.data = true
      rw [List.isPrefixOf_iff_prefix]
  have hoth : other ∈ indexNames.filter (fun n =>
      globPrefix (if strContainsDelim other then strBasename other else other) n) :=
    List.mem_filter.mpr ⟨by simpa using hmem, hpre⟩
  have hnot : deduplicateName indexNames other "__" 0 ∉
      indexNames.filter (fun n =>
        globPrefix (if strContainsDelim other then strBasename other else other) n) := by
    unfold deduplicateName
    rw [if_pos hmem]
    apply dedupLoop_not_mem
    exact dedup_candidate_exists _ _ _ 0
  refine ⟨hnot, ?_⟩
  intro he
  rw [he] at hnot
  exact hnot hoth

/-- The object heap for the aliasing claim: `heap` maps a reference (the
caller's variable) to the template object's mutable `name` field;
`tribeRefs` is `self.templates` as a list of references; `rowNames` the
`clusters` index. -/
structure HeapState where
  heap : List String
  tribeRefs : List Nat
  rowNames : List String
deriving DecidableEq, Repr

/-- `add_template(other, rename_duplicates)` (lines 121-132) on the
heap: on a name collision with renaming allowed, the assignment
`other.name = self._deduplicate_name(other.name)` MUTATES the caller's
object in place (`heap.set`) before the same reference is appended to
`self.templates`, and the `clusters` row is created under the new name
only. -/
def addTemplateH (s : HeapState) (ref : Nat) (renameDuplicates : Bool) :
    Except PyErr HeapState :=
  match s.heap.get? ref with
  | none => .error .attributeError
  | some nm =>
    if s.rowNames.contains nm then
      if renameDuplicates then
        .ok ⟨s.heap.set ref (deduplicateName s.rowNames nm "__" 0),
             s.tribeRefs ++ [ref],
             s.rowNames ++ [deduplicateName s.rowNames nm "__" 0]⟩
      else .error .attributeError
    else .ok ⟨s.heap, s.tribeRefs ++ [ref], s.rowNames ++ [nm]⟩

/-- C10 (confirmed): when `add_template` is called with
`rename_duplicates=True` on a template whose name collides, the caller's
template object is renamed in place: afterwards the caller's own
reference reads the derived deduplicated name, the new Membership row is
keyed by that new name, and the original name is not retained for the
added template anywhere (the new name genuinely differs from it). -/
theorem c10_add_template_renames_in_place (s : HeapState) (ref : Nat) (nm : String)
    (s' : HeapState)
    (href : s.heap.get? ref = some nm)
    (hdup : s.rowNames.contains nm = true)
    (hok : addTemplateH s ref true = .ok s') :
    s'.heap.get? ref = some (deduplicateName s.rowNames nm "__" 0) ∧
    s'.rowNames = s.rowNames ++ [deduplicateName s.rowNames nm "__" 0] ∧
    s'.tribeRefs = s.tribeRefs ++ [ref] ∧
    deduplicateName s.rowNames nm "__" 0 ≠ nm := by
  have hlt : ref < s.heap.length := by
    by_contra hge
    rw [List.get?_eq_none.mpr (by omega)] at href
    cases href
  unfold addTemplateH at hok
  rw [href] at hok
  dsimp only at hok
  rw [if_pos hdup] at hok
  simp only [if_true, Except.ok.injEq] at hok
  have hs' : s' = ⟨s.heap.set ref (deduplicateName s.rowNames nm "__" 0),
      s.tribeRefs ++ [ref],
      s.rowNames ++ [deduplicateName s.rowNames nm "__" 0]⟩ := hok.symm
  subst hs'
  refine ⟨?_, rfl, rfl, (deduplicateName_fresh s.rowNames nm hdup).2⟩
  show (s.heap.set ref (deduplicateName s.rowNames nm "__" 0)).get? ref = _
  rw [List.get?_set_eq]
  simp [List.get?_eq_getElem?, hlt]

/-- A concrete heap: the existing tribe holds the template at reference
0 named `eq1`; the caller's new template at reference 1 is also named
`eq1`. -/
def c10Heap : HeapState := ⟨["eq1", "eq1"], [0], ["eq1"]⟩

theorem c10_add_template_renames_in_place_witness :
    (⟨["eq1", "eq1__0"], [0, 1], ["eq1", "eq1__0"]⟩ : HeapState).heap.get? 1
        = some (deduplicateName c10Heap.rowNames "eq1" "__" 0) ∧
    (⟨["eq1", "eq1__0"], [0, 1], ["eq1", "eq1__0"]⟩ : HeapState).rowNames
        = c10Heap.rowNames ++ [deduplicateName c10Heap.rowNames "eq1" "__" 0] ∧
    (⟨["eq1", "eq1__0"], [0, 1], ["eq1", "eq1__0"]⟩ : HeapState).tribeRefs
        = c10Heap.tribeRefs ++ [1] ∧
    deduplicateName c10Heap.rowNames "eq1" "__" 0 ≠ "eq1" :=
  c10_add_template_renames_in_place c10Heap 1 "eq1"
    ⟨["eq1", "eq1__0"], [0, 1], ["eq1", "eq1__0"]⟩ rfl rfl rfl

end ClusteringTribe
